import Mathlib

/-!
Shallow embedding of the core of the `epics-execute` external-process
execution engine (`Command.cpp`, `Command.h`, `ThreadPoolExecutor.h/.cpp`),
together with theorems settling the specification claims.

Conventions of the embedding:
* `std::map<int, std::string>` (the argument map) is modelled as an
  association list sorted strictly by key, with `Nat` keys: the map only
  ever holds key `0` (set in the constructor) and keys coming from
  `setArgument`, which rejects indices `<= 0`.
* `std::map<std::string, std::string>` (the environment-variable map) is
  modelled as an association list with pairwise-distinct keys; strings are
  modelled as `List Char` (the C strings are char arrays).
* Byte buffers (`std::vector<char>`) are modelled as `List Char`.
* Fallible operations return `Except`; a thrown C++ exception corresponds
  to an `error` result, and the caller's state is unchanged in that case
  exactly when the C++ code throws before mutating.
* The nondeterminism of the operating system (fork/waitpid results, the
  child's behaviour, chunk sizes delivered by `read(2)`) is passed in
  explicitly as data (`RunWorld`, read schedules).
-/

namespace EpicsExecute

/-! ### Association-list model of `std::map` -/

/-- Strict key order used for the sorted argument map. -/
def keyLt (a b : Nat × String) : Prop := a.1 < b.1

instance : DecidableRel keyLt := fun a b => Nat.decLt a.1 b.1

/-- Insert-or-replace into an association list sorted strictly by `Nat`
key. Models `std::map<int, std::string>::operator[]` assignment: the map
stays sorted by key and keys stay pairwise distinct. -/
def mapPut : List (Nat × String) → Nat → String → List (Nat × String)
  | [], k, v => [(k, v)]
  | (k', v') :: rest, k, v =>
    if k < k' then (k, v) :: (k', v') :: rest
    else if k = k' then (k, v) :: rest
    else (k', v') :: mapPut rest k v

/-- Key lookup in an association list. Models `std::map::find`. -/
def lookupKey {α β : Type} [DecidableEq α] (l : List (α × β)) (k : α) :
    Option β :=
  (l.find? (fun e => e.1 = k)).map Prod.snd

/-- Insert-or-replace for an association list keyed by an arbitrary type
with decidable equality. Models `std::map<std::string, std::string>`
assignment up to iteration order (no claim depends on the order of the
environment map). -/
def assocPut {α β : Type} [DecidableEq α] :
    List (α × β) → α → β → List (α × β)
  | [], k, v => [(k, v)]
  | (k', v') :: rest, k, v =>
    if k = k' then (k, v) :: rest
    else (k', v') :: assocPut rest k v

/-- The keys of an association list. -/
def keysOf {α β : Type} (l : List (α × β)) : List α := l.map Prod.fst

/-! ### `prepareArguments` (Command.cpp lines 1275-1289) -/

/-- `arguments.rbegin()->first`: the key of the last entry of the sorted
argument map (`0` for the empty map, which the source rules out with an
assertion). -/
def maxKey (arguments : List (Nat × String)) : Nat :=
  ((arguments.map Prod.fst).getLast?).getD 0

/-- Translation of `prepareArguments`: build a vector of `maxIndex + 1`
empty strings, then overwrite the entry at each index defined in the map.
`List.set` at each map entry's key mirrors
`argumentsVector[argEntry->first] = argEntry->second`. -/
def prepareArguments (arguments : List (Nat × String)) : List String :=
  arguments.foldl (fun vec e => vec.set e.1 e.2)
    (List.replicate (maxKey arguments + 1) "")

/-! ### `prepareEnvironment` (Command.cpp lines 1296-1341) -/

/-- The name of an environment entry: the characters before the first
`'='` (`envString.substr(0, eqIndex)` with
`eqIndex = envString.find_first_of('=')`). -/
def envEntryName (s : List Char) : List Char :=
  s.takeWhile (fun c => c ≠ '=')

/-- Translation of `prepareEnvironment`. The first loop over `environ`
keeps every ambient entry that contains an `'='` (entries without one are
ignored as invalid) and whose name has no entry in the override map; the
second loop appends `NAME=VALUE` for every entry of the override map.
`'=' ∈ e` renders `find_first_of('=') != npos`. -/
def prepareEnvironment (envVars : List (List Char × List Char))
    (environ : List (List Char)) : List (List Char) :=
  (environ.filter
    (fun e => decide ('=' ∈ e) && (lookupKey envVars (envEntryName e)).isNone))
  ++ envVars.map (fun p => p.1 ++ '=' :: p.2)

/-- The entries of an environment vector whose name is `n`. -/
def entriesWithName (n : List Char) (l : List (List Char)) :
    List (List Char) :=
  l.filter (fun e => decide (envEntryName e = n))

/-! ### `AccumulatingPipe` (Command.cpp lines 862-992) -/

/-- One event of the read schedule: either the size choice the operating
system makes for one successful `read(2)` call (the call returns at most
`sz + 1` bytes, never more than requested nor more than are available,
and returns `0` exactly when the writer has closed the pipe and no data
is left), or a failing `read(2)` call. -/
inductive ReadEv
  | chunk (sz : Nat)
  | fail
deriving DecidableEq

/-- The drain phase of `AccumulatingPipe::readData`: once the buffer
holds `capacity` bytes, keep reading up to 1024 bytes per call into a
scratch buffer (discarding them) until `read` returns 0 or fails. Returns
`none` when the schedule is exhausted before the loop ends, otherwise the
final buffer (or `Except.error` for the `read() failed` exception) and
the bytes never delivered by the pipe. -/
def drainData (buffer : List Char) :
    List Char → List ReadEv → Option (Except Unit (List Char) × List Char)
  | _, [] => none
  | rest, ReadEv.fail :: _ => some (Except.error (), rest)
  | rest, ReadEv.chunk sz :: sched =>
    let n := min (sz + 1) (min 1024 rest.length)
    if n = 0 then some (Except.ok buffer, rest)
    else drainData buffer (rest.drop n) sched

/-- Translation of the main loop of `AccumulatingPipe::readData`: each
`read(fd, buffer.data() + totalBytesRead, buffer.size() - totalBytesRead)`
delivers `n` bytes (bounded by the request, by the data still to come and
by the size the schedule chooses); when the buffer reaches `capacity` the
drain phase starts; when `read` returns 0 the loop ends and the buffer is
resized to the bytes read so far. -/
def readData (capacity : Nat) :
    List Char → List Char → List ReadEv →
      Option (Except Unit (List Char) × List Char)
  | _, _, [] => none
  | _, rest, ReadEv.fail :: _ => some (Except.error (), rest)
  | buffer, rest, ReadEv.chunk sz :: sched =>
    let n := min (sz + 1) (min (capacity - buffer.length) rest.length)
    if n = 0 then some (Except.ok buffer, rest)
    else
      if (buffer ++ rest.take n).length = capacity then
        drainData (buffer ++ rest.take n) (rest.drop n) sched
      else readData capacity (buffer ++ rest.take n) (rest.drop n) sched

/-- Errors of the pipe abstractions; all are thrown as `std::logic_error`
in the source. -/
inductive PipeErr
  | misuse
  | capacityZero
  | bufferEmpty
deriving DecidableEq

/-- Observable state of an `AccumulatingPipe`: its capacity, the `valid`
flag guarding the single-use contract, and whether an OS pipe was
created. -/
structure AccumulatingPipe where
  capacity : Nat
  valid : Bool
  hasPipe : Bool
deriving DecidableEq

/-- `AccumulatingPipe::AccumulatingPipe(capacity)` in the successful case
(`pipe()` did not fail): with capacity 0 no OS pipe is created at all. -/
def AccumulatingPipe.new (capacity : Nat) : AccumulatingPipe :=
  { capacity := capacity, valid := true, hasPipe := capacity != 0 }

/-- State effect of `AccumulatingPipe::readDataAsync`. With capacity 0
the method returns an already-completed future holding an empty vector
without touching `valid`; otherwise it requires `valid`, clears it and
hands the read FD to the background task. The value the returned future
eventually holds is given by `readData` (capacity nonzero) or `[]`
(capacity zero). -/
def AccumulatingPipe.readDataAsyncState (p : AccumulatingPipe) :
    Except PipeErr AccumulatingPipe :=
  if !p.valid then Except.error PipeErr.misuse
  else if p.capacity = 0 then Except.ok p
  else Except.ok { p with valid := false }

/-- State effect of `AccumulatingPipe::transferWriteFd`. -/
def AccumulatingPipe.transferWriteFdState (p : AccumulatingPipe) :
    Except PipeErr AccumulatingPipe :=
  if !p.valid then Except.error PipeErr.misuse
  else if p.capacity = 0 then Except.error PipeErr.capacityZero
  else Except.ok { p with valid := false }

/-- The two operations an `AccumulatingPipe` endpoint user can invoke. -/
inductive AccOp
  | readAsync
  | transferW
deriving DecidableEq

def AccumulatingPipe.applyOp (p : AccumulatingPipe) :
    AccOp → Except PipeErr AccumulatingPipe
  | AccOp.readAsync => p.readDataAsyncState
  | AccOp.transferW => p.transferWriteFdState

/-! ### `PreFilledPipe` (Command.cpp lines 1009-1157) -/

/-- Observable state of a `PreFilledPipe`. -/
structure PreFilledPipe where
  buffer : List Char
  valid : Bool
  hasPipe : Bool
deriving DecidableEq

/-- `PreFilledPipe::PreFilledPipe(buffer)` in the successful case: with
an empty buffer no OS pipe is created. -/
def PreFilledPipe.new (buffer : List Char) : PreFilledPipe :=
  { buffer := buffer, valid := true, hasPipe := !buffer.isEmpty }

/-- State effect of `PreFilledPipe::transferReadFd`. -/
def PreFilledPipe.transferReadFdState (p : PreFilledPipe) :
    Except PipeErr PreFilledPipe :=
  if !p.valid then Except.error PipeErr.misuse
  else if p.buffer.isEmpty then Except.error PipeErr.bufferEmpty
  else Except.ok { p with valid := false }

/-- State effect of `PreFilledPipe::writeDataAsyncInternal(waitForPid,
pid)` (`writeDataAsync` passes `false`, `writeDataAsyncAndWaitForPid`
passes `true`). `valid` is cleared before the empty-buffer check. The
second component records whether the spawned background task issues
`waitpid` for the child: with a non-empty buffer or with `waitForPid`
set, the task runs `writeData(buffer, fd, waitForPid, pid)`, which calls
`waitpid` whenever `waitForPid` holds (the inner `if (waitForPid)` of the
empty-buffer branch is unreachable because that branch requires
`!waitForPid`). -/
def PreFilledPipe.writeDataAsyncState (p : PreFilledPipe)
    (waitForPid : Bool) : Except PipeErr (PreFilledPipe × Bool) :=
  if !p.valid then Except.error PipeErr.misuse
  else
    if p.buffer.isEmpty && !waitForPid then
      Except.ok ({ p with valid := false }, false)
    else Except.ok ({ p with valid := false }, waitForPid)

/-- The operations a `PreFilledPipe` endpoint user can invoke. -/
inductive PreOp
  | transferR
  | writeAsync (waitForPid : Bool)
deriving DecidableEq

def PreFilledPipe.applyOp (p : PreFilledPipe) :
    PreOp → Except PipeErr PreFilledPipe
  | PreOp.transferR => p.transferReadFdState
  | PreOp.writeAsync wfp => (p.writeDataAsyncState wfp).map Prod.fst

/-! ### `Command` (Command.h lines 173-330, Command.cpp lines 1372-1673) -/

/-- `Command::exitCodeKilledBySignal`: exit code used to indicate that
the child process was killed by a signal. -/
def exitCodeKilledBySignal : Int := -1

/-- `Command::exitCodeSystemError`: exit code used to indicate a system
error (a failing system call such as `fork()` or `execve()`). -/
def exitCodeSystemError : Int := -2

/-- The fields of the `Command` class (Command.h lines 305-318). -/
structure Command where
  commandPath : String
  exitCode : Int
  arguments : List (Nat × String)
  envVars : List (List Char × List Char)
  running : Bool
  stderrBuffer : List Char
  stderrCapacity : Nat
  stdinBuffer : List Char
  stdoutBuffer : List Char
  stdoutCapacity : Nat
  wait : Bool
deriving DecidableEq

/-- `Command::Command(commandPath, wait)`: all scalar fields are zeroed
and `arguments[0] = commandPath`. -/
def Command.new (commandPath : String) (wait : Bool) : Command :=
  { commandPath := commandPath, exitCode := 0,
    arguments := mapPut [] 0 commandPath, envVars := [], running := false,
    stderrBuffer := [], stderrCapacity := 0, stdinBuffer := [],
    stdoutBuffer := [], stdoutCapacity := 0, wait := wait }

/-- Errors thrown by the configuration methods
(`std::invalid_argument`). -/
inductive CmdErr
  | invalidArgument
deriving DecidableEq

/-- `Command::ensureStdErrCapacity`. -/
def Command.ensureStdErrCapacity (s : Command) (capacity : Nat) :
    Except CmdErr Command :=
  if capacity ≠ 0 ∧ s.wait = false then Except.error CmdErr.invalidArgument
  else Except.ok { s with stderrCapacity := max s.stderrCapacity capacity }

/-- `Command::ensureStdOutCapacity`. -/
def Command.ensureStdOutCapacity (s : Command) (capacity : Nat) :
    Except CmdErr Command :=
  if capacity ≠ 0 ∧ s.wait = false then Except.error CmdErr.invalidArgument
  else Except.ok { s with stdoutCapacity := max s.stdoutCapacity capacity }

/-- `Command::getExitCode`. -/
def Command.getExitCode (s : Command) : Int := s.exitCode

/-- `Command::getStdErrBuffer`. -/
def Command.getStdErrBuffer (s : Command) : List Char := s.stderrBuffer

/-- `Command::getStdOutBuffer`. -/
def Command.getStdOutBuffer (s : Command) : List Char := s.stdoutBuffer

/-- `Command::isWait`. -/
def Command.isWait (s : Command) : Bool := s.wait

/-- `Command::setArgument`: the index is an `int` and indices `<= 0` are
rejected, so the stored key is the positive index (represented as the
`Nat` `index.toNat`). -/
def Command.setArgument (s : Command) (index : Int) (value : String) :
    Except CmdErr Command :=
  if index ≤ 0 then Except.error CmdErr.invalidArgument
  else Except.ok { s with arguments := mapPut s.arguments index.toNat value }

/-- `Command::setEnvVar`. -/
def Command.setEnvVar (s : Command) (name value : List Char) : Command :=
  { s with envVars := assocPut s.envVars name value }

/-- `Command::setStdInBuffer`. -/
def Command.setStdInBuffer (s : Command) (buffer : List Char) : Command :=
  { s with stdinBuffer := buffer }

/-- `Command::updateResultState(exitCode, stdoutBuffer, stderrBuffer)`;
the defaulted buffer parameters of the declaration are rendered by
passing `[]` explicitly at the call sites that use the defaults. -/
def Command.updateResultState (s : Command) (exitCode : Int)
    (stdoutBuffer stderrBuffer : List Char) : Command :=
  { s with
    exitCode := exitCode,
    stderrBuffer := stderrBuffer,
    stdoutBuffer := stdoutBuffer }

/-- The `RunningFlagGuard` destructor: clears the running flag unless the
guard was constructed with `ignore` (which `run()` sets to `!wait`). -/
def Command.releaseRunningFlag (s : Command) : Command :=
  if s.wait then { s with running := false } else s

/-- How the child process behaves after a successful `fork`, as the
parent observes it through the shared `ChildProcessStatus` segment and
`waitpid`: `execve` can fail (the child records the error and calls
`_exit(-1)`, so `childProcessStatus->execveStatus` is nonzero); otherwise
the child exits with a status (`WIFEXITED`, status in 0..255), is killed
by a signal (`WIFSIGNALED`), or reports a status that is neither
(`unexpected`). -/
inductive ChildOutcome
  | execFailed (errorNumber : Nat)
  | exited (k : Nat)
  | signaled (sig : Nat)
  | unexpected
deriving DecidableEq

/-- The operating-system nondeterminism one call to `Command::run`
depends on: whether `fork()` and `waitpid()` succeed, what the child
does, the byte lists the stdout/stderr read futures deliver (bounded by
the captured capacities; `readData` describes how they arise from the
child's output), whether those reads succeed, and whether the background
stdin write succeeds. Failures of the pre-fork system calls (`pipe`,
`mmap`, `sysconf`) abort `run` before a child exists without recording
anything; no claim depends on them and the worlds here take them as
succeeding. -/
structure RunWorld where
  forkOk : Bool
  waitpidOk : Bool
  outcome : ChildOutcome
  stdoutRead : List Char
  stderrRead : List Char
  stdoutReadOk : Bool
  stderrReadOk : Bool
  stdinWriteOk : Bool
deriving DecidableEq

/-- The exceptions `Command::run` can raise: the running-flag guard's
`std::invalid_argument`, `std::system_error` for failing system calls
(fork, execve, waitpid, pipe reads, the stdin write) and the
`std::logic_error` for an unexpected `waitpid` status. -/
inductive RunError
  | alreadyRunning
  | forkFailed
  | execveFailed
  | unexpectedStatus
  | waitpidFailed
  | readFailed
  | stdinWriteFailed
deriving DecidableEq

/-- What one call to `Command::run` leaves behind: the final command
state, the exception raised to the caller (if any), and whether the
child process has been / will be reaped by a `waitpid` call (issued by
the parent directly in wait mode, or by the background stdin-writer task
started through `writeDataAsyncAndWaitForPid` in no-wait mode). -/
structure RunResult where
  state : Command
  error : Option RunError
  childReaped : Bool
deriving DecidableEq

/-- Translation of `Command::run` (Command.cpp lines 1416-1642).

* The `RunningFlagGuard` fails construction with `std::invalid_argument`
  when `wait && running`; on success it sets `running` and every later
  exit path runs its destructor (`releaseRunningFlag`).
* The configuration snapshot, pipe construction and `sysconf` query have
  no observable effect on the command state.
* `fork` failure records a system-error result, but only in wait mode.
* In wait mode the parent starts the stdout/stderr read futures and the
  stdin write future, then blocks in `waitpid`. A `waitpid` failure and
  an `execve` failure record the system-error exit code with the
  defaulted (empty) buffers. Otherwise `WIFEXITED` records
  `WEXITSTATUS`, `WIFSIGNALED` records `exitCodeKilledBySignal`, and any
  other status records `exitCodeSystemError`, each together with the
  values of the stdout/stderr futures (whose `get()` re-raises a failed
  read before `updateResultState` runs). The stdin future is only
  consulted (re-raising a failed write) after a result was recorded on
  the exited/signaled paths.
* In no-wait mode the parent only calls
  `stdinPipe.writeDataAsyncAndWaitForPid(childPid)` on the freshly
  constructed stdin pipe and returns; nothing is recorded. -/
def Command.run (s : Command) (w : RunWorld) : RunResult :=
  if s.wait && s.running then
    { state := s, error := some RunError.alreadyRunning,
      childReaped := false }
  else
    let s := if s.wait then { s with running := true } else s
    if !w.forkOk then
      let s := if s.wait then s.updateResultState exitCodeSystemError [] []
        else s
      { state := s.releaseRunningFlag, error := some RunError.forkFailed,
        childReaped := false }
    else if s.wait then
      if !w.waitpidOk then
        { state :=
            (s.updateResultState exitCodeSystemError [] []).releaseRunningFlag,
          error := some RunError.waitpidFailed, childReaped := false }
      else
        match w.outcome with
        | ChildOutcome.execFailed _ =>
          { state :=
              (s.updateResultState exitCodeSystemError []
                []).releaseRunningFlag,
            error := some RunError.execveFailed, childReaped := true }
        | ChildOutcome.exited k =>
          if w.stdoutReadOk && w.stderrReadOk then
            { state :=
                (s.updateResultState (Int.ofNat k) w.stdoutRead
                  w.stderrRead).releaseRunningFlag,
              error := if w.stdinWriteOk then none
                else some RunError.stdinWriteFailed,
              childReaped := true }
          else
            { state := s.releaseRunningFlag,
              error := some RunError.readFailed, childReaped := true }
        | ChildOutcome.signaled _ =>
          if w.stdoutReadOk && w.stderrReadOk then
            { state :=
                (s.updateResultState exitCodeKilledBySignal w.stdoutRead
                  w.stderrRead).releaseRunningFlag,
              error := if w.stdinWriteOk then none
                else some RunError.stdinWriteFailed,
              childReaped := true }
          else
            { state := s.releaseRunningFlag,
              error := some RunError.readFailed, childReaped := true }
        | ChildOutcome.unexpected =>
          if w.stdoutReadOk && w.stderrReadOk then
            { state :=
                (s.updateResultState exitCodeSystemError w.stdoutRead
                  w.stderrRead).releaseRunningFlag,
              error := some RunError.unexpectedStatus, childReaped := true }
          else
            { state := s.releaseRunningFlag,
              error := some RunError.readFailed, childReaped := true }
    else
      match (PreFilledPipe.new s.stdinBuffer).writeDataAsyncState true with
      | Except.ok (_, reaped) =>
        { state := s, error := none, childReaped := reaped }
      | Except.error _ =>
        { state := s, error := none, childReaped := false }

/-- The operations the adapter layer can invoke on a `Command` after
creation (exceptions leave the state unchanged because the throwing
methods throw before mutating). -/
inductive CommandOp
  | setArgument (index : Int) (value : String)
  | setEnvVar (name value : List Char)
  | setStdInBuffer (buffer : List Char)
  | ensureStdOutCapacity (capacity : Nat)
  | ensureStdErrCapacity (capacity : Nat)
  | run (w : RunWorld)

def Command.applyOp (s : Command) : CommandOp → Command
  | CommandOp.setArgument i v =>
    match s.setArgument i v with
    | Except.ok s' => s'
    | Except.error _ => s
  | CommandOp.setEnvVar n v => s.setEnvVar n v
  | CommandOp.setStdInBuffer b => s.setStdInBuffer b
  | CommandOp.ensureStdOutCapacity c =>
    match s.ensureStdOutCapacity c with
    | Except.ok s' => s'
    | Except.error _ => s
  | CommandOp.ensureStdErrCapacity c =>
    match s.ensureStdErrCapacity c with
    | Except.ok s' => s'
    | Except.error _ => s
  | CommandOp.run w => (s.run w).state

/-- A command state reached by a sequence of operations on a fresh
command. -/
def Command.applyOps (s : Command) (ops : List CommandOp) : Command :=
  ops.foldl Command.applyOp s

/-! ### `ThreadPoolExecutor` (ThreadPoolExecutor.h, ThreadPoolExecutor.cpp)

The executor's shared state is guarded by one mutex; the transition
system below has one transition per critical section of the code. Worker
threads are counted by the phase they are in: `atLoop` counts workers
about to evaluate the top of the `while (true)` loop in `processTasks`
(freshly spawned, or woken from the condition variable), `waiting` counts
workers blocked in `wakeUpCv.wait`, `running` counts workers executing a
task outside the mutex. `queue` is `pendingTasks.size()`. `idle` is the
`idleThreads` counter (an `int` in the source, hence `Int`). -/
structure PoolState where
  idle : Int
  maxIdle : Int
  queue : Nat
  waiting : Nat
  atLoop : Nat
  running : Nat
  shutdown : Bool
deriving DecidableEq

/-- `ThreadPoolExecutor::ThreadPoolExecutor(maximumNumberOfIdleThreads)`:
no workers, no tasks, `idleThreads = 0`, not shut down. -/
def PoolState.init (maximumNumberOfIdleThreads : Int) : PoolState :=
  { idle := 0, maxIdle := maximumNumberOfIdleThreads, queue := 0,
    waiting := 0, atLoop := 0, running := 0, shutdown := false }

/-- One critical section of `ThreadPoolExecutor`.

* `submitNotify` / `submitSpawn`: `submit` pushes the task and then
  either decrements `idleThreads` and calls `notify_one` (when
  `idleThreads` is nonzero) or spawns and detaches a fresh worker
  (destruction forbids later submissions, hence `shutdown = false`).
* `popTask`: a worker at the loop top pops the front task and runs it
  outside the lock.
* `loopShutdownExit`: a worker at the loop top sees an empty queue and
  `shutdown`, decrements `idleThreads` and exits.
* `loopWait`: a worker at the loop top sees an empty queue and no
  shutdown and blocks in `wakeUpCv.wait`.
* `wakeUp`: a waiting worker returns from `wait` (notification or
  spurious wakeup) and is back at the loop top.
* `finishAtCap`: a worker finishing its task sees
  `idleThreads == maxIdleThreads` and exits.
* `finishThenPop` / `finishThenShutdownExit` / `finishThenWait`: a worker
  finishing its task increments `idleThreads` and, in the same critical
  section, re-evaluates the loop top: it pops the next task, or (empty
  queue, shutdown) decrements the counter again and exits, or (empty
  queue, no shutdown) blocks in `wait`.
* `destructorShutdown`: the destructor sets `shutdown` (and notifies all
  waiters, which `wakeUp` renders). -/
inductive PoolStep : PoolState → PoolState → Prop
  | submitNotify (s : PoolState) (h1 : s.shutdown = false)
      (h2 : s.idle ≠ 0) :
    PoolStep s { s with queue := s.queue + 1, idle := s.idle - 1 }
  | submitSpawn (s : PoolState) (h1 : s.shutdown = false)
      (h2 : s.idle = 0) :
    PoolStep s { s with queue := s.queue + 1, atLoop := s.atLoop + 1 }
  | popTask (s : PoolState) (h1 : s.atLoop ≠ 0) (h2 : s.queue ≠ 0) :
    PoolStep s
      { s with
        queue := s.queue - 1, atLoop := s.atLoop - 1,
        running := s.running + 1 }
  | loopShutdownExit (s : PoolState) (h1 : s.atLoop ≠ 0) (h2 : s.queue = 0)
      (h3 : s.shutdown = true) :
    PoolStep s { s with idle := s.idle - 1, atLoop := s.atLoop - 1 }
  | loopWait (s : PoolState) (h1 : s.atLoop ≠ 0) (h2 : s.queue = 0)
      (h3 : s.shutdown = false) :
    PoolStep s { s with atLoop := s.atLoop - 1, waiting := s.waiting + 1 }
  | wakeUp (s : PoolState) (h1 : s.waiting ≠ 0) :
    PoolStep s { s with waiting := s.waiting - 1, atLoop := s.atLoop + 1 }
  | finishAtCap (s : PoolState) (h1 : s.running ≠ 0)
      (h2 : s.idle = s.maxIdle) :
    PoolStep s { s with running := s.running - 1 }
  | finishThenPop (s : PoolState) (h1 : s.running ≠ 0)
      (h2 : s.idle ≠ s.maxIdle) (h3 : s.queue ≠ 0) :
    PoolStep s { s with idle := s.idle + 1, queue := s.queue - 1 }
  | finishThenShutdownExit (s : PoolState) (h1 : s.running ≠ 0)
      (h2 : s.idle ≠ s.maxIdle) (h3 : s.queue = 0)
      (h4 : s.shutdown = true) :
    PoolStep s { s with running := s.running - 1 }
  | finishThenWait (s : PoolState) (h1 : s.running ≠ 0)
      (h2 : s.idle ≠ s.maxIdle) (h3 : s.queue = 0)
      (h4 : s.shutdown = false) :
    PoolStep s
      { s with
        idle := s.idle + 1, running := s.running - 1,
        waiting := s.waiting + 1 }
  | destructorShutdown (s : PoolState) :
    PoolStep s { s with shutdown := true }

/-- The pool states reachable from a given state. -/
def PoolReachable : PoolState → PoolState → Prop :=
  Relation.ReflTransGen PoolStep

/-- The inductive invariant: the idle counter is within bounds and agrees
with the worker accounting (each pending task is matched by a worker that
is at the loop top or waiting and is not counted idle). -/
def PoolInv (s : PoolState) : Prop :=
  0 ≤ s.idle ∧ s.idle ≤ s.maxIdle ∧
    s.idle + (s.queue : Int) = (s.waiting : Int) + (s.atLoop : Int)

/-- The inductive invariant of a `Command`: the argument map is sorted
with position 0 bound to the command path, a nonzero capture capacity
implies wait mode, and in no-wait mode the result state never leaves its
initial value. -/
def CmdInv (s : Command) : Prop :=
  s.arguments.Pairwise keyLt ∧
  lookupKey s.arguments 0 = some s.commandPath ∧
  (s.stdoutCapacity ≠ 0 → s.wait = true) ∧
  (s.stderrCapacity ≠ 0 → s.wait = true) ∧
  (s.wait = false →
    s.exitCode = 0 ∧ s.stdoutBuffer = [] ∧ s.stderrBuffer = [])

/-- The value of the future returned by `AccumulatingPipe::readDataAsync`
for a given stream of bytes produced by the writer: for capacity 0 the
method completes a promise with an empty vector immediately (no pipe
exists, nothing is consumed); otherwise the background task runs
`readData`. -/
def readDataAsyncValue (capacity : Nat) (data : List Char)
    (sched : List ReadEv) : Option (Except Unit (List Char) × List Char) :=
  if capacity = 0 then some (Except.ok [], data)
  else readData capacity [] data sched

/-! ### The claims -/

/-- A `RunWorld` in which fork, waitpid, the capture reads and the stdin
write all succeed and the child behaves as `oc`; used by concrete
instantiations. -/
def happyWorld (oc : ChildOutcome) : RunWorld :=
  { forkOk := true, waitpidOk := true, outcome := oc, stdoutRead := [],
    stderrRead := [], stdoutReadOk := true, stderrReadOk := true,
    stdinWriteOk := true }

/-- A wait-mode command whose running flag is set, representing an
in-flight synchronous run. -/
def runningCatCommand : Command :=
  { Command.new "/bin/cat" true with running := true }

/-- A `PreFilledPipe` that has already been consumed. -/
def consumedPreFilledPipe : PreFilledPipe :=
  { buffer := ['z'], valid := false, hasPipe := true }

/-- An `AccumulatingPipe` that has already been consumed. -/
def consumedAccumulatingPipe : AccumulatingPipe :=
  { capacity := 3, valid := false, hasPipe := true }

/-- A wait-mode command carrying a result from an earlier run. -/
def staleCommand : Command :=
  { Command.new "/bin/cat" true with
    exitCode := 3, stdoutBuffer := ['o'], stderrBuffer := ['e'] }

/-- A world in which `waitpid` fails. -/
def waitpidFailWorld : RunWorld :=
  { happyWorld (ChildOutcome.exited 0) with waitpidOk := false }

/-- A world in which the child dies on signal 9 after producing some
output on both streams. -/
def sigWorld : RunWorld :=
  { happyWorld (ChildOutcome.signaled 9) with
    stdoutRead := ['x'], stderrRead := ['y'] }

/-! ### Theorems -/

theorem lookupKey_nil {α β : Type} [DecidableEq α] (k : α) :
    lookupKey ([] : List (α × β)) k = none := rfl

theorem lookupKey_cons {α β : Type} [DecidableEq α] (hd : α × β)
    (tl : List (α × β)) (k : α) :
    lookupKey (hd :: tl) k =
      if hd.1 = k then some hd.2 else lookupKey tl k := by
  by_cases h : hd.1 = k
  · simp [lookupKey, List.find?_cons_of_pos, h]
  · simp [lookupKey, List.find?_cons_of_neg, h]

theorem mapPut_subset {l : List (Nat × String)} {k : Nat} {v : String}
    {e : Nat × String} (h : e ∈ mapPut l k v) : e = (k, v) ∨ e ∈ l := by
  induction l with
  | nil =>
    simp only [mapPut, List.mem_singleton] at h
    exact Or.inl h
  | cons hd tl ih =>
    unfold mapPut at h
    split_ifs at h with h1 h2
    · rcases List.mem_cons.mp h with h | h
      · exact Or.inl h
      · exact Or.inr h
    · rcases List.mem_cons.mp h with h | h
      · exact Or.inl h
      · exact Or.inr (List.mem_cons.mpr (Or.inr h))
    · rcases List.mem_cons.mp h with h | h
      · exact Or.inr (List.mem_cons.mpr (Or.inl h))
      · rcases ih h with h | h
        · exact Or.inl h
        · exact Or.inr (List.mem_cons.mpr (Or.inr h))

theorem mapPut_pairwise {l : List (Nat × String)} {k : Nat} {v : String}
    (h : l.Pairwise keyLt) : (mapPut l k v).Pairwise keyLt := by
  induction l with
  | nil => simp [mapPut, keyLt]
  | cons hd tl ih =>
    rcases h with _ | ⟨hhd, htl⟩
    unfold mapPut
    split_ifs with h1 h2
    · refine List.Pairwise.cons ?_ (List.Pairwise.cons hhd htl)
      intro e he
      rcases List.mem_cons.mp he with rfl | he
      · exact h1
      · exact lt_trans h1 (hhd e he)
    · refine List.Pairwise.cons ?_ htl
      intro e he
      have := hhd e he
      simp only [keyLt] at this ⊢
      omega
    · refine List.Pairwise.cons ?_ (ih htl)
      intro e he
      rcases mapPut_subset he with rfl | he
      · simp only [keyLt]
        omega
      · exact hhd e he

theorem lookupKey_mapPut_self (l : List (Nat × String)) (k : Nat)
    (v : String) : lookupKey (mapPut l k v) k = some v := by
  induction l with
  | nil => simp [mapPut, lookupKey_cons]
  | cons hd tl ih =>
    unfold mapPut
    split_ifs with h1 h2
    · simp [lookupKey_cons]
    · simp [lookupKey_cons]
    · have : hd.1 ≠ k := by omega
      simpa [lookupKey_cons, this] using ih

theorem lookupKey_mapPut_ne (l : List (Nat × String)) {k k' : Nat}
    (v : String) (h : k ≠ k') :
    lookupKey (mapPut l k v) k' = lookupKey l k' := by
  induction l with
  | nil => simp [mapPut, lookupKey_cons, lookupKey_nil, h]
  | cons hd tl ih =>
    unfold mapPut
    split_ifs with h1 h2
    · simp [lookupKey_cons, h]
    · subst h2
      simp [lookupKey_cons, h]
    · by_cases h3 : hd.1 = k'
      · simp [lookupKey_cons, h3]
      · simpa [lookupKey_cons, h3] using ih

theorem mapPut_cons_head_lt {hd : Nat × String} {tl : List (Nat × String)}
    {k : Nat} (v : String) (h : hd.1 < k) :
    mapPut (hd :: tl) k v = hd :: mapPut tl k v := by
  have h1 : ¬ k < hd.1 := by omega
  have h2 : ¬ k = hd.1 := by omega
  simp [mapPut, h1, h2]

theorem maxKey_cons_of_ne_nil {hd : Nat × String}
    {tl : List (Nat × String)} (h : tl ≠ []) :
    maxKey (hd :: tl) = maxKey tl := by
  cases tl with
  | nil => cases h rfl
  | cons x xs =>
    unfold maxKey
    rw [List.map_cons, List.map_cons, List.getLast?_cons_cons]

theorem le_maxKey_of_mem {l : List (Nat × String)} (hs : l.Pairwise keyLt) :
    ∀ e ∈ l, e.1 ≤ maxKey l := by
  induction l with
  | nil => intro e he; cases he
  | cons hd tl ih =>
    rcases hs with _ | ⟨hhd, htl⟩
    intro e he
    rcases List.mem_cons.mp he with rfl | he
    · cases tl with
      | nil => simp [maxKey]
      | cons x xs =>
        rw [maxKey_cons_of_ne_nil (by simp)]
        have hx : e.1 < x.1 := hhd x (List.mem_cons_self x xs)
        have := ih htl x (List.mem_cons_self x xs)
        omega
    · have hne : tl ≠ [] := by rintro rfl; cases he
      rw [maxKey_cons_of_ne_nil hne]
      exact ih htl e he

theorem writeAll_length (entries : List (Nat × String))
    (vec : List String) :
    (entries.foldl (fun v e => v.set e.1 e.2) vec).length = vec.length := by
  induction entries generalizing vec with
  | nil => rfl
  | cons hd tl ih => simpa [List.length_set] using ih (vec.set hd.1 hd.2)

theorem writeAll_getElem_not_mem (entries : List (Nat × String))
    (vec : List String) {k : Nat} (h : k ∉ keysOf entries) :
    (entries.foldl (fun v e => v.set e.1 e.2) vec)[k]? = vec[k]? := by
  induction entries generalizing vec with
  | nil => rfl
  | cons hd tl ih =>
    simp only [keysOf, List.map_cons, List.mem_cons] at h
    push_neg at h
    rw [List.foldl_cons, ih (vec.set hd.1 hd.2) (by simpa [keysOf] using h.2),
      List.getElem?_set_ne (by exact h.1.symm)]

theorem writeAll_getElem_mem {entries : List (Nat × String)}
    (hs : entries.Pairwise keyLt) (vec : List String) {k : Nat} {v : String}
    (h : (k, v) ∈ entries) (hk : k < vec.length) :
    (entries.foldl (fun w e => w.set e.1 e.2) vec)[k]? = some v := by
  induction entries generalizing vec with
  | nil => cases h
  | cons hd tl ih =>
    rcases hs with _ | ⟨hhd, htl⟩
    rcases List.mem_cons.mp h with h | h
    · have hk' : k ∉ keysOf tl := by
        intro hmem
        rcases List.mem_map.mp hmem with ⟨e, he, hke⟩
        have := hhd e he
        simp only [keyLt] at this
        rw [← h] at this
        simp only at this
        omega
      rw [List.foldl_cons, writeAll_getElem_not_mem tl _ hk', ← h]
      exact List.getElem?_set_self (by simpa [List.length_set] using hk)
    · rw [List.foldl_cons]
      exact ih htl (vec.set hd.1 hd.2) h (by simpa [List.length_set] using hk)


theorem envEntryName_format {k : List Char} (w : List Char)
    (h : '=' ∉ k) : envEntryName (k ++ '=' :: w) = k := by
  induction k with
  | nil => simp [envEntryName, List.takeWhile]
  | cons c cs ih =>
    simp only [List.mem_cons, not_or] at h
    simp only [envEntryName, List.cons_append, List.takeWhile_cons] at ih ⊢
    have : c ≠ '=' := fun hc => h.1 hc.symm
    simp only [this, decide_True, decide_not, Bool.not_false, if_true]
    simpa [envEntryName] using ih h.2

theorem poolInv_init {m : Int} (hm : 0 ≤ m) : PoolInv (PoolState.init m) := by
  refine ⟨le_refl 0, hm, ?_⟩
  simp [PoolState.init]

theorem poolInv_step {s s' : PoolState} (hs : PoolInv s)
    (h : PoolStep s s') : PoolInv s' := by
  obtain ⟨h0, h1, h2⟩ := hs
  cases h <;>
    (refine ⟨?_, ?_, ?_⟩ <;> (dsimp only; push_cast at h2 ⊢; omega))

theorem poolInv_reachable {s s' : PoolState} (hs : PoolInv s)
    (h : PoolReachable s s') : PoolInv s' := by
  induction h with
  | refl => exact hs
  | tail _ hstep ih => exact poolInv_step ih hstep

/-! ### Lemmas about the read loop of `AccumulatingPipe::readData` -/

theorem drainData_ok {buffer : List Char} :
    ∀ {sched : List ReadEv} {rest out left : List Char},
      drainData buffer rest sched = some (Except.ok out, left) →
      out = buffer ∧ left = [] := by
  intro sched
  induction sched with
  | nil =>
    intro rest out left h
    simp [drainData] at h
  | cons ev sched ih =>
    intro rest out left h
    cases ev with
    | fail => simp [drainData] at h
    | chunk sz =>
      rw [drainData] at h
      by_cases h0 : min (sz + 1) (min 1024 rest.length) = 0
      · rw [if_pos h0] at h
        have hrest : rest.length = 0 := by omega
        obtain ⟨h1, h2⟩ := by simpa using h
        exact ⟨h1.symm, h2 ▸ List.length_eq_zero.mp hrest⟩
      · rw [if_neg h0] at h
        exact ih h

theorem readData_ok {capacity : Nat} :
    ∀ {sched : List ReadEv} {buffer rest out left : List Char},
      buffer.length < capacity →
      readData capacity buffer rest sched = some (Except.ok out, left) →
      out = buffer ++ rest.take (capacity - buffer.length) ∧ left = [] := by
  intro sched
  induction sched with
  | nil =>
    intro buffer rest out left hlt h
    simp [readData] at h
  | cons ev sched ih =>
    intro buffer rest out left hlt h
    cases ev with
    | fail => simp [readData] at h
    | chunk sz =>
      rw [readData] at h
      by_cases h0 :
          min (sz + 1) (min (capacity - buffer.length) rest.length) = 0
      · rw [if_pos h0] at h
        have hrest : rest.length = 0 := by omega
        obtain ⟨h1, h2⟩ := by simpa using h
        refine ⟨?_, h2 ▸ List.length_eq_zero.mp hrest⟩
        rw [List.length_eq_zero.mp hrest]
        simp [h1]
      · rw [if_neg h0] at h
        have hn_le_req :
            min (sz + 1) (min (capacity - buffer.length) rest.length) ≤
              capacity - buffer.length := by omega
        have hn_le_rest :
            min (sz + 1) (min (capacity - buffer.length) rest.length) ≤
              rest.length := by omega
        have hlen : (buffer ++
            rest.take
              (min (sz + 1)
                (min (capacity - buffer.length) rest.length))).length =
            buffer.length +
              min (sz + 1) (min (capacity - buffer.length) rest.length) := by
          simp [List.length_take]
          try omega
        by_cases hc : (buffer ++
            rest.take
              (min (sz + 1)
                (min (capacity - buffer.length) rest.length))).length =
            capacity
        · rw [if_pos hc] at h
          obtain ⟨h1, h2⟩ := drainData_ok h
          refine ⟨?_, h2⟩
          rw [h1]
          have : min (sz + 1) (min (capacity - buffer.length) rest.length) =
              capacity - buffer.length := by omega
          rw [this]
        · rw [if_neg hc] at h
          have hlt' : (buffer ++
              rest.take
                (min (sz + 1)
                  (min (capacity - buffer.length) rest.length))).length <
              capacity := by omega
          obtain ⟨h1, h2⟩ := ih hlt' h
          refine ⟨?_, h2⟩
          rw [h1, List.append_assoc]
          congr 1
          rw [hlen]
          have harith : capacity - (buffer.length +
              min (sz + 1) (min (capacity - buffer.length) rest.length)) =
              capacity - buffer.length -
                min (sz + 1) (min (capacity - buffer.length) rest.length) := by
            omega
          rw [harith, ← List.take_add]
          congr 1
          omega

/-- The full behaviour of the read future for a nonzero capacity: the
retained buffer is the first `min capacity data.length` bytes and the
whole stream is drained. -/
theorem readData_take {capacity : Nat} {sched : List ReadEv}
    {data out left : List Char} (hcap : capacity ≠ 0)
    (h : readData capacity [] data sched = some (Except.ok out, left)) :
    out = data.take capacity ∧ left = [] := by
  have := readData_ok (by simpa using Nat.pos_of_ne_zero hcap) h
  simpa using this

/-! ### Invariants of the `Command` state -/

theorem mem_of_lookupKey {α β : Type} [DecidableEq α]
    {l : List (α × β)} {k : α} {v : β} (h : lookupKey l k = some v) :
    (k, v) ∈ l := by
  unfold lookupKey at h
  rcases Option.map_eq_some'.mp h with ⟨a, ha, hav⟩
  have hmem := List.mem_of_find?_eq_some ha
  have hp := List.find?_some ha
  have hk : a.1 = k := by simpa using hp
  have : a = (k, v) := by
    cases a
    simp_all
  exact this ▸ hmem

/-- `Command::run` never changes the configuration fields: only
`exitCode`, the two output buffers and the running flag are written. -/
theorem Command.run_preserves (s : Command) (w : RunWorld) :
    (s.run w).state.commandPath = s.commandPath ∧
    (s.run w).state.arguments = s.arguments ∧
    (s.run w).state.envVars = s.envVars ∧
    (s.run w).state.stdinBuffer = s.stdinBuffer ∧
    (s.run w).state.stdoutCapacity = s.stdoutCapacity ∧
    (s.run w).state.stderrCapacity = s.stderrCapacity ∧
    (s.run w).state.wait = s.wait := by
  unfold Command.run Command.updateResultState Command.releaseRunningFlag
  dsimp only
  repeat' split
  all_goals exact ⟨rfl, rfl, rfl, rfl, rfl, rfl, rfl⟩

/-- In no-wait mode `run` leaves the whole state untouched. -/
theorem Command.run_state_of_not_wait {s : Command} (w : RunWorld)
    (hw : s.wait = false) : (s.run w).state = s := by
  unfold Command.run
  cases hf : w.forkOk <;>
    simp [hw, hf, Command.releaseRunningFlag, Command.updateResultState,
      PreFilledPipe.writeDataAsyncState, PreFilledPipe.new]

theorem Command.applyOp_wait (s : Command) (op : CommandOp) :
    (s.applyOp op).wait = s.wait := by
  cases op with
  | setArgument i v =>
    simp only [Command.applyOp, Command.setArgument]
    split
    · next s' heq =>
      split at heq
      · cases heq
      · rcases heq with ⟨⟩
        rfl
    · rfl
  | setEnvVar n v => rfl
  | setStdInBuffer b => rfl
  | ensureStdOutCapacity c =>
    simp only [Command.applyOp, Command.ensureStdOutCapacity]
    split
    · next s' heq =>
      split at heq
      · cases heq
      · rcases heq with ⟨⟩
        rfl
    · rfl
  | ensureStdErrCapacity c =>
    simp only [Command.applyOp, Command.ensureStdErrCapacity]
    split
    · next s' heq =>
      split at heq
      · cases heq
      · rcases heq with ⟨⟩
        rfl
    · rfl
  | run w => exact (Command.run_preserves s w).2.2.2.2.2.2

theorem cmdInv_new (commandPath : String) (wait : Bool) :
    CmdInv (Command.new commandPath wait) := by
  refine ⟨?_, ?_, ?_, ?_, ?_⟩ <;>
    simp [Command.new, mapPut, lookupKey_cons, keyLt]

theorem cmdInv_applyOp {s : Command} (hs : CmdInv s) (op : CommandOp) :
    CmdInv (s.applyOp op) := by
  obtain ⟨ha, h0, hoc, hec, hnw⟩ := hs
  cases op with
  | setArgument i v =>
    simp only [Command.applyOp, Command.setArgument]
    split
    · next s' heq =>
      split at heq
      · cases heq
      · next hle =>
        rcases heq with ⟨⟩
        have hi : i.toNat ≠ 0 := by omega
        exact ⟨mapPut_pairwise ha,
          by rw [lookupKey_mapPut_ne _ _ hi]; exact h0, hoc, hec, hnw⟩
    · exact ⟨ha, h0, hoc, hec, hnw⟩
  | setEnvVar n v =>
    exact ⟨ha, h0, hoc, hec, hnw⟩
  | setStdInBuffer b =>
    exact ⟨ha, h0, hoc, hec, hnw⟩
  | ensureStdOutCapacity c =>
    simp only [Command.applyOp, Command.ensureStdOutCapacity]
    split
    · next s' heq =>
      split at heq
      · cases heq
      · next hcond =>
        rcases heq with ⟨⟩
        push_neg at hcond
        refine ⟨ha, h0, ?_, hec, hnw⟩
        intro hmax
        dsimp only at hmax ⊢
        by_cases hc : c = 0
        · subst hc
          exact hoc (by simpa using hmax)
        · simpa [Bool.not_eq_false] using hcond hc
    · exact ⟨ha, h0, hoc, hec, hnw⟩
  | ensureStdErrCapacity c =>
    simp only [Command.applyOp, Command.ensureStdErrCapacity]
    split
    · next s' heq =>
      split at heq
      · cases heq
      · next hcond =>
        rcases heq with ⟨⟩
        push_neg at hcond
        refine ⟨ha, h0, hoc, ?_, hnw⟩
        intro hmax
        dsimp only at hmax ⊢
        by_cases hc : c = 0
        · subst hc
          exact hec (by simpa using hmax)
        · simpa [Bool.not_eq_false] using hcond hc
    · exact ⟨ha, h0, hoc, hec, hnw⟩
  | run w =>
    obtain ⟨hp1, hp2, hp3, hp4, hp5, hp6, hp7⟩ := Command.run_preserves s w
    simp only [Command.applyOp]
    refine ⟨hp2 ▸ ha, by rw [hp2, hp1]; exact h0, by rw [hp5, hp7]; exact hoc,
      by rw [hp6, hp7]; exact hec, ?_⟩
    intro hw
    rw [Command.run_state_of_not_wait w (hp7 ▸ hw)]
    exact hnw (hp7 ▸ hw)

theorem cmdInv_applyOps (s : Command) (hs : CmdInv s) (ops : List CommandOp) :
    CmdInv (s.applyOps ops) := by
  induction ops generalizing s with
  | nil => exact hs
  | cons op ops ih => exact ih _ (cmdInv_applyOp hs op)

theorem applyOps_wait (s : Command) (ops : List CommandOp) :
    (s.applyOps ops).wait = s.wait := by
  induction ops generalizing s with
  | nil => rfl
  | cons op ops ih =>
    simpa [Command.applyOps, Command.applyOp_wait] using
      (ih (s.applyOp op)).trans (Command.applyOp_wait s op)

theorem lookupKey_none_iff {α β : Type} [DecidableEq α]
    {l : List (α × β)} {k : α} :
    lookupKey l k = none ↔ k ∉ keysOf l := by
  induction l with
  | nil => simp [lookupKey_nil, keysOf]
  | cons hd tl ih =>
    rw [lookupKey_cons]
    by_cases h : hd.1 = k
    · simp [h, keysOf]
    · simp only [h, if_false, ih, keysOf, List.map_cons, List.mem_cons]
      constructor
      · intro hn
        rintro (rfl | hmem)
        · exact h rfl
        · exact hn hmem
      · intro hn hmem
        exact hn (Or.inr hmem)

theorem Command.applyOp_commandPath (s : Command) (op : CommandOp) :
    (s.applyOp op).commandPath = s.commandPath := by
  cases op with
  | setArgument i v =>
    simp only [Command.applyOp, Command.setArgument]
    split
    · next s' heq =>
      split at heq
      · cases heq
      · rcases heq with ⟨⟩
        rfl
    · rfl
  | setEnvVar n v => rfl
  | setStdInBuffer b => rfl
  | ensureStdOutCapacity c =>
    simp only [Command.applyOp, Command.ensureStdOutCapacity]
    split
    · next s' heq =>
      split at heq
      · cases heq
      · rcases heq with ⟨⟩
        rfl
    · rfl
  | ensureStdErrCapacity c =>
    simp only [Command.applyOp, Command.ensureStdErrCapacity]
    split
    · next s' heq =>
      split at heq
      · cases heq
      · rcases heq with ⟨⟩
        rfl
    · rfl
  | run w => exact (Command.run_preserves s w).1

theorem applyOps_commandPath (s : Command) (ops : List CommandOp) :
    (s.applyOps ops).commandPath = s.commandPath := by
  induction ops generalizing s with
  | nil => rfl
  | cons op ops ih =>
    exact (ih (s.applyOp op)).trans (Command.applyOp_commandPath s op)

/-- In no-wait mode, `run` raises exactly on fork failure, reaps the
child through the background stdin task whenever fork succeeded, and
never reports `alreadyRunning`. -/
theorem Command.run_of_not_wait {s : Command} (w : RunWorld)
    (hw : s.wait = false) :
    (s.run w).state = s ∧
    ((s.run w).error = if w.forkOk then none
      else some RunError.forkFailed) ∧
    (s.run w).childReaped = w.forkOk := by
  unfold Command.run
  cases hf : w.forkOk <;>
    simp [hw, hf, Command.releaseRunningFlag, Command.updateResultState,
      PreFilledPipe.writeDataAsyncState, PreFilledPipe.new]

/-- Every guarded (wait-mode) `run` that passes the running-flag guard
leaves the running flag cleared, on all exit paths. -/
theorem Command.run_running_cleared {s : Command} (w : RunWorld)
    (hw : s.wait = true) (hr : s.running = false) :
    (s.run w).state.running = false := by
  unfold Command.run
  dsimp only
  cases hf : w.forkOk <;> cases hwp : w.waitpidOk <;>
    cases ho : w.outcome <;> cases hso : w.stdoutReadOk <;>
    cases hse : w.stderrReadOk <;>
    simp [hw, hr, hf, hwp, hso, hse, Command.releaseRunningFlag,
      Command.updateResultState]

/-! ### Lemmas about `prepareEnvironment` -/

theorem entriesWithName_append (n : List Char) (l1 l2 : List (List Char)) :
    entriesWithName n (l1 ++ l2) =
      entriesWithName n l1 ++ entriesWithName n l2 := by
  simp [entriesWithName, List.filter_append]

theorem entriesWithName_overrides_nil
    {envVars : List (List Char × List Char)} {n : List Char}
    (hk : ∀ k ∈ keysOf envVars, '=' ∉ k) (hn : n ∉ keysOf envVars) :
    entriesWithName n
      (envVars.map (fun p => p.1 ++ '=' :: p.2)) = [] := by
  induction envVars with
  | nil => rfl
  | cons hd tl ih =>
    have hhd : '=' ∉ hd.1 := hk hd.1 (by simp [keysOf])
    have hname : envEntryName (hd.1 ++ '=' :: hd.2) = hd.1 :=
      envEntryName_format hd.2 hhd
    have hne : hd.1 ≠ n := by
      intro h
      exact hn (h ▸ by simp [keysOf])
    simp only [List.map_cons, entriesWithName, List.filter_cons, hname, hne,
      decide_False, if_false]
    have hk' : ∀ k ∈ keysOf tl, '=' ∉ k := by
      intro k hmem
      exact hk k (by simp [keysOf] at hmem ⊢; exact Or.inr hmem)
    have hn' : n ∉ keysOf tl := by
      intro hmem
      exact hn (by simp [keysOf] at hmem ⊢; exact Or.inr hmem)
    simpa [entriesWithName] using ih hk' hn'

theorem entriesWithName_overrides_some
    {envVars : List (List Char × List Char)} {n v : List Char}
    (hnd : (keysOf envVars).Nodup) (hk : ∀ k ∈ keysOf envVars, '=' ∉ k)
    (h : lookupKey envVars n = some v) :
    entriesWithName n (envVars.map (fun p => p.1 ++ '=' :: p.2)) =
      [n ++ '=' :: v] := by
  induction envVars with
  | nil => simp [lookupKey_nil] at h
  | cons hd tl ih =>
    have hhd : '=' ∉ hd.1 := hk hd.1 (by simp [keysOf])
    have hname : envEntryName (hd.1 ++ '=' :: hd.2) = hd.1 :=
      envEntryName_format hd.2 hhd
    have hk' : ∀ k ∈ keysOf tl, '=' ∉ k := by
      intro k hmem
      exact hk k (by simp [keysOf] at hmem ⊢; exact Or.inr hmem)
    have hnd2 := hnd
    rw [keysOf, List.map_cons, List.nodup_cons] at hnd2
    rw [lookupKey_cons] at h
    by_cases hh : hd.1 = n
    · rw [if_pos hh] at h
      rcases h with ⟨⟩
      subst hh
      have hn' : hd.1 ∉ keysOf tl := hnd2.1
      have htl := entriesWithName_overrides_nil hk' hn'
      rw [entriesWithName] at htl
      simp only [List.map_cons, entriesWithName, List.filter_cons, hname,
        decide_True, if_true, htl]
    · rw [if_neg hh] at h
      have hnd' : (keysOf tl).Nodup := hnd2.2
      have hname_ne : decide (envEntryName (hd.1 ++ '=' :: hd.2) = n) = false := by
        simp [hname, hh]
      simp only [List.map_cons, entriesWithName, List.filter_cons, hname_ne,
        if_false]
      simpa [entriesWithName] using ih hnd' hk' h

theorem entriesWithName_ambient_some
    {envVars : List (List Char × List Char)} {environ : List (List Char)}
    {n v : List Char} (h : lookupKey envVars n = some v) :
    entriesWithName n
      (environ.filter (fun e =>
        decide ('=' ∈ e) && (lookupKey envVars (envEntryName e)).isNone)) =
      [] := by
  rw [entriesWithName, List.filter_eq_nil_iff]
  intro e he
  rcases List.mem_filter.mp he with ⟨_, hp⟩
  intro hne
  have hname : envEntryName e = n := of_decide_eq_true hne
  rw [Bool.and_eq_true] at hp
  rw [hname, h] at hp
  simp at hp

theorem entriesWithName_ambient_none
    {envVars : List (List Char × List Char)} {environ : List (List Char)}
    {n : List Char} (h : lookupKey envVars n = none) :
    entriesWithName n
      (environ.filter (fun e =>
        decide ('=' ∈ e) && (lookupKey envVars (envEntryName e)).isNone)) =
      entriesWithName n (environ.filter (fun e => decide ('=' ∈ e))) := by
  unfold entriesWithName
  rw [List.filter_filter, List.filter_filter]
  apply List.filter_congr
  intro e he
  by_cases hne : envEntryName e = n
  · simp [hne, h]
  · simp [hne]

/-- C1: for every wait-mode Command whose `run()` forks successfully and
whose capture reads succeed: a child that exits normally with status `k`
(0 ≤ k ≤ 255) yields `getExitCode() = k`; a child killed by a signal
yields `exitCodeKilledBySignal = -1`; a failing `execve` yields
`exitCodeSystemError = -2` and `run()` raises the system error. -/
theorem C1_exit_code_mapping (s : Command) (w : RunWorld)
    (hw : s.wait = true) (hr : s.running = false) (hf : w.forkOk = true)
    (hwp : w.waitpidOk = true) (hso : w.stdoutReadOk = true)
    (hse : w.stderrReadOk = true) :
    (∀ k : Nat, k ≤ 255 → w.outcome = ChildOutcome.exited k →
      (s.run w).state.getExitCode = (k : Int)) ∧
    (∀ sig : Nat, w.outcome = ChildOutcome.signaled sig →
      (s.run w).state.getExitCode = exitCodeKilledBySignal) ∧
    (∀ e : Nat, w.outcome = ChildOutcome.execFailed e →
      (s.run w).state.getExitCode = exitCodeSystemError ∧
      (s.run w).error = some RunError.execveFailed) := by
  refine ⟨?_, ?_, ?_⟩
  · intro k hk ho
    unfold Command.run
    simp [hw, hr, hf, hwp, ho, hso, hse, Command.releaseRunningFlag,
      Command.updateResultState, Command.getExitCode]
  · intro sig ho
    unfold Command.run
    simp [hw, hr, hf, hwp, ho, hso, hse, Command.releaseRunningFlag,
      Command.updateResultState, Command.getExitCode]
  · intro e ho
    unfold Command.run
    simp [hw, hr, hf, hwp, ho, Command.releaseRunningFlag,
      Command.updateResultState, Command.getExitCode]

theorem C1_exit_code_mapping_witness :
    ((Command.new "/bin/echo" true).run
      (happyWorld (ChildOutcome.exited 7))).state.getExitCode = (7 : Int) ∧
    ((Command.new "/bin/echo" true).run
      (happyWorld (ChildOutcome.signaled 9))).state.getExitCode =
      exitCodeKilledBySignal ∧
    ((Command.new "/bin/echo" true).run
      (happyWorld (ChildOutcome.execFailed 2))).state.getExitCode =
        exitCodeSystemError ∧
    ((Command.new "/bin/echo" true).run
      (happyWorld (ChildOutcome.execFailed 2))).error =
        some RunError.execveFailed := by
  refine ⟨?_, ?_, ?_, ?_⟩
  · exact (C1_exit_code_mapping _ _ rfl rfl rfl rfl rfl rfl).1 7
      (by decide) rfl
  · exact (C1_exit_code_mapping _ _ rfl rfl rfl rfl rfl rfl).2.1 9 rfl
  · exact ((C1_exit_code_mapping _ _ rfl rfl rfl rfl rfl rfl).2.2 2 rfl).1
  · exact ((C1_exit_code_mapping _ _ rfl rfl rfl rfl rfl rfl).2.2 2 rfl).2

/-- C2: for every Command state reachable by operations on a fresh
command, the materialized argv vector has length `max position + 1`,
entry 0 is the command path, every set position holds its value, and
every unset position below the maximum is the empty string. -/
theorem C2_argv_materialization (path : String) (wait : Bool)
    (ops : List CommandOp) (s : Command)
    (hs : s = (Command.new path wait).applyOps ops) :
    (prepareArguments s.arguments).length = maxKey s.arguments + 1 ∧
    (prepareArguments s.arguments)[0]? = some path ∧
    (∀ k v, lookupKey s.arguments k = some v →
      (prepareArguments s.arguments)[k]? = some v) ∧
    (∀ k, k < (prepareArguments s.arguments).length →
      lookupKey s.arguments k = none →
      (prepareArguments s.arguments)[k]? = some "") ∧
    (∀ e ∈ s.arguments, e.1 ≤ maxKey s.arguments) := by
  subst hs
  obtain ⟨ha, h0, -, -, -⟩ :=
    cmdInv_applyOps _ (cmdInv_new path wait) ops
  have hpath := applyOps_commandPath (Command.new path wait) ops
  have hlen : (prepareArguments
      ((Command.new path wait).applyOps ops).arguments).length =
      maxKey ((Command.new path wait).applyOps ops).arguments + 1 := by
    rw [prepareArguments, writeAll_length]
    simp
  have hmem : ∀ k v,
      lookupKey ((Command.new path wait).applyOps ops).arguments k =
        some v →
      (prepareArguments
        ((Command.new path wait).applyOps ops).arguments)[k]? = some v := by
    intro k v h
    have hkv := mem_of_lookupKey h
    have hk := le_maxKey_of_mem ha (k, v) hkv
    rw [prepareArguments]
    exact writeAll_getElem_mem ha _ hkv (by simp; omega)
  refine ⟨hlen, ?_, hmem, ?_, le_maxKey_of_mem ha⟩
  · have := hmem 0 _ h0
    rwa [hpath] at this
  · intro k hk hnone
    rw [prepareArguments,
      writeAll_getElem_not_mem _ _ (lookupKey_none_iff.mp hnone)]
    rw [hlen] at hk
    simp [List.getElem?_replicate, hk]

theorem C2_argv_materialization_witness :
    (prepareArguments ((Command.new "/bin/cat" true).applyOps
      [CommandOp.setArgument 2 "x"]).arguments)[0]? = some "/bin/cat" ∧
    (prepareArguments ((Command.new "/bin/cat" true).applyOps
      [CommandOp.setArgument 2 "x"]).arguments).length =
      maxKey ((Command.new "/bin/cat" true).applyOps
        [CommandOp.setArgument 2 "x"]).arguments + 1 := by
  refine ⟨?_, ?_⟩
  · exact (C2_argv_materialization "/bin/cat" true
      [CommandOp.setArgument 2 "x"] _ rfl).2.1
  · exact (C2_argv_materialization "/bin/cat" true
      [CommandOp.setArgument 2 "x"] _ rfl).1

/-- C3: the child's environment is the ambient environment unioned by
name with the override map: the entries carrying an overridden name are
exactly the single `NAME=VALUE` entry of that override, and entries whose
name is not overridden are exactly the valid ambient entries of that
name. -/
theorem C3_environment_merge (envVars : List (List Char × List Char))
    (environ : List (List Char)) (hnd : (keysOf envVars).Nodup)
    (hk : ∀ k ∈ keysOf envVars, '=' ∉ k) :
    (∀ n v, lookupKey envVars n = some v →
      entriesWithName n (prepareEnvironment envVars environ) =
        [n ++ '=' :: v]) ∧
    (∀ n, lookupKey envVars n = none →
      entriesWithName n (prepareEnvironment envVars environ) =
        entriesWithName n
          (environ.filter (fun e => decide ('=' ∈ e)))) := by
  constructor
  · intro n v h
    rw [prepareEnvironment, entriesWithName_append,
      entriesWithName_ambient_some h,
      entriesWithName_overrides_some hnd hk h]
    rfl
  · intro n h
    rw [prepareEnvironment, entriesWithName_append,
      entriesWithName_ambient_none h,
      entriesWithName_overrides_nil hk (lookupKey_none_iff.mp h),
      List.append_nil]

theorem C3_environment_merge_witness :
    entriesWithName ['A']
      (prepareEnvironment [(['A'], ['1'])]
        [['A', '=', '0'], ['B', '=', '2']]) = [['A', '=', '1']] ∧
    entriesWithName ['B']
      (prepareEnvironment [(['A'], ['1'])]
        [['A', '=', '0'], ['B', '=', '2']]) =
      entriesWithName ['B']
        ([['A', '=', '0'], ['B', '=', '2']].filter
          (fun e => decide ('=' ∈ e))) := by
  constructor
  · exact (C3_environment_merge [(['A'], ['1'])]
      [['A', '=', '0'], ['B', '=', '2']] (by decide) (by decide)).1
      ['A'] ['1'] (by decide)
  · exact (C3_environment_merge [(['A'], ['1'])]
      [['A', '=', '0'], ['B', '=', '2']] (by decide) (by decide)).2
      ['B'] (by decide)

/-- C4: for every capacity `c` and writer byte sequence, the accumulating
read channel returns exactly the first `min c length` bytes, it fully
drains the stream (nothing is left to block the writer), and capacity 0
yields an empty buffer with no OS pipe created. -/
theorem C4_capture_truncation :
    (∀ (capacity : Nat) (data out left : List Char) (sched : List ReadEv),
      capacity ≠ 0 →
      readDataAsyncValue capacity data sched =
        some (Except.ok out, left) →
      out = data.take capacity ∧
      out.length = min capacity data.length ∧ left = []) ∧
    (∀ (data : List Char) (sched : List ReadEv),
      readDataAsyncValue 0 data sched = some (Except.ok [], data)) ∧
    (AccumulatingPipe.new 0).hasPipe = false := by
  refine ⟨?_, ?_, rfl⟩
  · intro c data out left sched hc h
    rw [readDataAsyncValue, if_neg hc] at h
    obtain ⟨h1, h2⟩ := readData_take hc h
    exact ⟨h1, by rw [h1, List.length_take], h2⟩
  · intro data sched
    simp [readDataAsyncValue]

theorem C4_capture_truncation_witness :
    (['a', 'b'] : List Char) = (['a', 'b', 'c'] : List Char).take 2 ∧
    (['a', 'b'] : List Char).length =
      min 2 (['a', 'b', 'c'] : List Char).length ∧
    ([] : List Char) = [] :=
  C4_capture_truncation.1 2 ['a', 'b', 'c'] ['a', 'b'] []
    [ReadEv.chunk 0, ReadEv.chunk 9, ReadEv.chunk 9, ReadEv.chunk 9]
    (by decide) rfl

/-- C5: invoking a wait-mode `run()` while another is in flight fails
immediately with `invalid_argument` and changes nothing (not even the
in-flight run's flag); a guarded run that proceeds always ends with the
running flag cleared; no guard is applied when the wait flag is false
(no `alreadyRunning` error, state untouched). -/
theorem C5_synchronous_run_guard :
    (∀ (s : Command) (w : RunWorld), s.wait = true → s.running = true →
      s.run w =
        { state := s,
          error := some RunError.alreadyRunning,
          childReaped := false }) ∧
    (∀ (s : Command) (w : RunWorld), s.wait = true → s.running = false →
      (s.run w).state.running = false) ∧
    (∀ (s : Command) (w : RunWorld), s.wait = false →
      (s.run w).error ≠ some RunError.alreadyRunning ∧
      (s.run w).state = s) := by
  refine ⟨?_, ?_, ?_⟩
  · intro s w h1 h2
    unfold Command.run
    simp [h1, h2]
  · intro s w h1 h2
    exact Command.run_running_cleared w h1 h2
  · intro s w h
    obtain ⟨h1, h2, -⟩ := Command.run_of_not_wait w h
    refine ⟨?_, h1⟩
    rw [h2]
    split <;> simp

theorem C5_synchronous_run_guard_witness :
    runningCatCommand.run (happyWorld (ChildOutcome.exited 0)) =
      { state := runningCatCommand,
        error := some RunError.alreadyRunning,
        childReaped := false } ∧
    ((Command.new "/bin/cat" true).run
      (happyWorld (ChildOutcome.exited 0))).state.running = false := by
  constructor
  · exact C5_synchronous_run_guard.1 _ _ rfl rfl
  · exact C5_synchronous_run_guard.2.1 _ _ rfl rfl

/-- C6: a command created with `wait = false` never records a result: the
exit code stays 0 and the buffers stay empty across any sequence of
operations; `run` leaves the state untouched, raises exactly on fork
failure (recording nothing), and when fork succeeds the child is reaped
by the background stdin-writer task. -/
theorem C6_no_wait_frame (path : String) (ops : List CommandOp)
    (w : RunWorld) (s : Command)
    (hs : s = (Command.new path false).applyOps ops) :
    s.getExitCode = 0 ∧ s.getStdOutBuffer = [] ∧
    s.getStdErrBuffer = [] ∧ (s.run w).state = s ∧
    (s.run w).error =
      (if w.forkOk then none else some RunError.forkFailed) ∧
    (s.run w).childReaped = w.forkOk := by
  subst hs
  have hw : ((Command.new path false).applyOps ops).wait = false := by
    rw [applyOps_wait]
    rfl
  obtain ⟨-, -, -, -, hnw⟩ :=
    cmdInv_applyOps _ (cmdInv_new path false) ops
  obtain ⟨he, hb1, hb2⟩ := hnw hw
  obtain ⟨h1, h2, h3⟩ := Command.run_of_not_wait w hw
  exact ⟨he, hb1, hb2, h1, h2, h3⟩

theorem C6_no_wait_frame_witness :
    (Command.new "/bin/sleep" false).getExitCode = 0 ∧
    (Command.new "/bin/sleep" false).getStdOutBuffer = [] ∧
    (Command.new "/bin/sleep" false).getStdErrBuffer = [] ∧
    ((Command.new "/bin/sleep" false).run
      (happyWorld (ChildOutcome.exited 0))).state =
      Command.new "/bin/sleep" false ∧
    ((Command.new "/bin/sleep" false).run
      (happyWorld (ChildOutcome.exited 0))).error =
      (if (happyWorld (ChildOutcome.exited 0)).forkOk then none
        else some RunError.forkFailed) ∧
    ((Command.new "/bin/sleep" false).run
      (happyWorld (ChildOutcome.exited 0))).childReaped =
      (happyWorld (ChildOutcome.exited 0)).forkOk :=
  C6_no_wait_frame "/bin/sleep" [] (happyWorld (ChildOutcome.exited 0))
    _ rfl

/-- C7: requesting a nonzero capture capacity on a no-wait command raises
`invalid_argument` (capacity unchanged since the method throws before
mutating); otherwise the stored capacity becomes the maximum of the
current capacity and the request, which never shrinks it; consequently
on every reachable command state a positive capacity implies the wait
flag. -/
theorem C7_capacity_guard :
    (∀ (s : Command) (n : Nat), n ≠ 0 → s.wait = false →
      s.ensureStdOutCapacity n = Except.error CmdErr.invalidArgument ∧
      s.ensureStdErrCapacity n = Except.error CmdErr.invalidArgument) ∧
    (∀ (s : Command) (n : Nat), ¬(n ≠ 0 ∧ s.wait = false) →
      s.ensureStdOutCapacity n =
        Except.ok { s with stdoutCapacity := max s.stdoutCapacity n } ∧
      s.ensureStdErrCapacity n =
        Except.ok { s with stderrCapacity := max s.stderrCapacity n } ∧
      s.stdoutCapacity ≤ max s.stdoutCapacity n ∧
      s.stderrCapacity ≤ max s.stderrCapacity n) ∧
    (∀ (path : String) (wait : Bool) (ops : List CommandOp),
      (((Command.new path wait).applyOps ops).stdoutCapacity ≠ 0 →
        ((Command.new path wait).applyOps ops).wait = true) ∧
      (((Command.new path wait).applyOps ops).stderrCapacity ≠ 0 →
        ((Command.new path wait).applyOps ops).wait = true)) := by
  refine ⟨?_, ?_, ?_⟩
  · intro s n h1 h2
    constructor
    · rw [Command.ensureStdOutCapacity, if_pos ⟨h1, h2⟩]
    · rw [Command.ensureStdErrCapacity, if_pos ⟨h1, h2⟩]
  · intro s n h
    refine ⟨?_, ?_, Nat.le_max_left _ _, Nat.le_max_left _ _⟩
    · rw [Command.ensureStdOutCapacity, if_neg h]
    · rw [Command.ensureStdErrCapacity, if_neg h]
  · intro path wait ops
    obtain ⟨-, -, hoc, hec, -⟩ :=
      cmdInv_applyOps _ (cmdInv_new path wait) ops
    exact ⟨hoc, hec⟩

theorem C7_capacity_guard_witness :
    ((Command.new "x" false).ensureStdOutCapacity 5 =
      Except.error CmdErr.invalidArgument ∧
     (Command.new "x" false).ensureStdErrCapacity 5 =
      Except.error CmdErr.invalidArgument) ∧
    (Command.new "x" true).ensureStdOutCapacity 5 =
      Except.ok
        { Command.new "x" true with
          stdoutCapacity := max (Command.new "x" true).stdoutCapacity 5 } := by
  constructor
  · exact C7_capacity_guard.1 (Command.new "x" false) 5 (by decide) rfl
  · exact (C7_capacity_guard.2.1 (Command.new "x" true) 5 (by decide)).1

/-- Any operation invoked on a pipe whose `valid` flag has been cleared
raises the misuse logic error. -/
theorem acc_applyOp_error_of_invalid (p : AccumulatingPipe)
    (h : p.valid = false) (o : AccOp) :
    p.applyOp o = Except.error PipeErr.misuse := by
  cases o <;>
    simp [AccumulatingPipe.applyOp, AccumulatingPipe.readDataAsyncState,
      AccumulatingPipe.transferWriteFdState, h]

theorem pre_applyOp_error_of_invalid (p : PreFilledPipe)
    (h : p.valid = false) (o : PreOp) :
    p.applyOp o = Except.error PipeErr.misuse := by
  cases o <;>
    simp [PreFilledPipe.applyOp, PreFilledPipe.transferReadFdState,
      PreFilledPipe.writeDataAsyncState, Except.map, h]

/-- C8 counterexample: on an `AccumulatingPipe` of capacity 0 the first
`readDataAsync` succeeds without clearing `valid`, and a second
`readDataAsync` is silently accepted (another completed empty future)
instead of raising a logic error. -/
theorem C8_pipe_single_use_counterexample :
    (AccumulatingPipe.new 0).readDataAsyncState =
      Except.ok (AccumulatingPipe.new 0) ∧
    Except.bind (AccumulatingPipe.new 0).readDataAsyncState
      (fun p => p.readDataAsyncState) =
      Except.ok (AccumulatingPipe.new 0) :=
  ⟨rfl, rfl⟩

/-- C8 (amended): for every nonzero capacity, after one successful
`AccumulatingPipe` operation every further operation raises a logic
error; for every buffer (including the empty one), after one successful
`PreFilledPipe` operation every further operation raises a logic error;
on an `AccumulatingPipe` of capacity 0, however, the only operation that
can succeed is `readDataAsync`, and it leaves the pipe state unchanged,
so repeating it is silently accepted. -/
theorem C8_pipe_single_use_amended :
    (∀ (c : Nat) (o1 o2 : AccOp) (p1 : AccumulatingPipe), c ≠ 0 →
      (AccumulatingPipe.new c).applyOp o1 = Except.ok p1 →
      ∃ e, p1.applyOp o2 = Except.error e) ∧
    (∀ (buf : List Char) (o1 o2 : PreOp) (p1 : PreFilledPipe),
      (PreFilledPipe.new buf).applyOp o1 = Except.ok p1 →
      ∃ e, p1.applyOp o2 = Except.error e) ∧
    (∀ (o : AccOp) (p1 : AccumulatingPipe),
      (AccumulatingPipe.new 0).applyOp o = Except.ok p1 →
      o = AccOp.readAsync ∧ p1 = AccumulatingPipe.new 0) := by
  refine ⟨?_, ?_, ?_⟩
  · intro c o1 o2 p1 hc h
    cases o1 with
    | readAsync =>
      have hnew : (AccumulatingPipe.new c).applyOp AccOp.readAsync =
          Except.ok
            { capacity := c, valid := false, hasPipe := c != 0 } := by
        simp [AccumulatingPipe.applyOp, AccumulatingPipe.readDataAsyncState,
          AccumulatingPipe.new, hc]
      rw [hnew] at h
      rcases h with ⟨⟩
      exact ⟨PipeErr.misuse, acc_applyOp_error_of_invalid _ rfl o2⟩
    | transferW =>
      have hnew : (AccumulatingPipe.new c).applyOp AccOp.transferW =
          Except.ok
            { capacity := c, valid := false, hasPipe := c != 0 } := by
        simp [AccumulatingPipe.applyOp,
          AccumulatingPipe.transferWriteFdState, AccumulatingPipe.new, hc]
      rw [hnew] at h
      rcases h with ⟨⟩
      exact ⟨PipeErr.misuse, acc_applyOp_error_of_invalid _ rfl o2⟩
  · intro buf o1 o2 p1 h
    cases o1 with
    | transferR =>
      by_cases hb : buf.isEmpty
      · simp [PreFilledPipe.applyOp, PreFilledPipe.transferReadFdState,
          PreFilledPipe.new, hb] at h
      · have hnew : (PreFilledPipe.new buf).applyOp PreOp.transferR =
            Except.ok
              { buffer := buf, valid := false,
                hasPipe := !buf.isEmpty } := by
          simp [PreFilledPipe.applyOp, PreFilledPipe.transferReadFdState,
            PreFilledPipe.new, hb]
        rw [hnew] at h
        rcases h with ⟨⟩
        exact ⟨PipeErr.misuse, pre_applyOp_error_of_invalid _ rfl o2⟩
    | writeAsync wfp =>
      have hnew : (PreFilledPipe.new buf).applyOp (PreOp.writeAsync wfp) =
          Except.ok
            { buffer := buf, valid := false,
              hasPipe := !buf.isEmpty } := by
        cases hb : buf.isEmpty && !wfp <;>
          simp [PreFilledPipe.applyOp, PreFilledPipe.writeDataAsyncState,
            PreFilledPipe.new, Except.map, hb]
      rw [hnew] at h
      rcases h with ⟨⟩
      exact ⟨PipeErr.misuse, pre_applyOp_error_of_invalid _ rfl o2⟩
  · intro o p1 h
    cases o with
    | readAsync =>
      have hnew : (AccumulatingPipe.new 0).applyOp AccOp.readAsync =
          Except.ok (AccumulatingPipe.new 0) := rfl
      rw [hnew] at h
      rcases h with ⟨⟩
      exact ⟨rfl, rfl⟩
    | transferW =>
      have hnew : (AccumulatingPipe.new 0).applyOp AccOp.transferW =
          Except.error PipeErr.capacityZero := rfl
      rw [hnew] at h
      cases h

theorem C8_pipe_single_use_amended_witness :
    (∃ e, consumedPreFilledPipe.applyOp PreOp.transferR =
      Except.error e) ∧
    (∃ e, consumedAccumulatingPipe.applyOp AccOp.readAsync =
      Except.error e) := by
  constructor
  · exact C8_pipe_single_use_amended.2.1 ['z'] (PreOp.writeAsync false)
      PreOp.transferR _ rfl
  · exact C8_pipe_single_use_amended.1 3 AccOp.transferW AccOp.readAsync
      _ (by decide) rfl

/-- C9: every state of the thread-pool executor reachable from a freshly
constructed pool with a nonnegative idle cap keeps
`0 ≤ idleThreads ≤ maxIdleThreads`, where the transitions are exactly
the critical sections of `submit` and of the worker loop. -/
theorem C9_thread_pool_invariant (m : Int) (s : PoolState) (hm : 0 ≤ m)
    (h : PoolReachable (PoolState.init m) s) :
    0 ≤ s.idle ∧ s.idle ≤ s.maxIdle :=
  ⟨(poolInv_reachable (poolInv_init hm) h).1,
    (poolInv_reachable (poolInv_init hm) h).2.1⟩

theorem C9_thread_pool_invariant_witness :
    0 ≤ (PoolState.mk 0 4 1 0 1 0 false).idle ∧
    (PoolState.mk 0 4 1 0 1 0 false).idle ≤
      (PoolState.mk 0 4 1 0 1 0 false).maxIdle :=
  C9_thread_pool_invariant 4 _ (by decide)
    (Relation.ReflTransGen.tail Relation.ReflTransGen.refl
      (PoolStep.submitSpawn (PoolState.init 4) rfl rfl))

/-- C10: in a wait-mode run, the waitpid-failure and execve-failure
branches record the system-error exit code together with the default
empty buffers, discarding any previously stored output, while the
signal-death branch stores the prefixes the capture futures delivered. -/
theorem C10_error_branches_clear_buffers (s : Command) (w : RunWorld)
    (hw : s.wait = true) (hr : s.running = false)
    (hf : w.forkOk = true) :
    (w.waitpidOk = false →
      (s.run w).state.getStdOutBuffer = [] ∧
      (s.run w).state.getStdErrBuffer = [] ∧
      (s.run w).state.getExitCode = exitCodeSystemError) ∧
    (∀ e, w.waitpidOk = true → w.outcome = ChildOutcome.execFailed e →
      (s.run w).state.getStdOutBuffer = [] ∧
      (s.run w).state.getStdErrBuffer = [] ∧
      (s.run w).state.getExitCode = exitCodeSystemError) ∧
    (∀ sig, w.waitpidOk = true → w.outcome = ChildOutcome.signaled sig →
      w.stdoutReadOk = true → w.stderrReadOk = true →
      (s.run w).state.getStdOutBuffer = w.stdoutRead ∧
      (s.run w).state.getStdErrBuffer = w.stderrRead) := by
  refine ⟨?_, ?_, ?_⟩
  · intro hwp
    unfold Command.run
    simp [hw, hr, hf, hwp, Command.releaseRunningFlag,
      Command.updateResultState, Command.getStdOutBuffer,
      Command.getStdErrBuffer, Command.getExitCode]
  · intro e hwp ho
    unfold Command.run
    simp [hw, hr, hf, hwp, ho, Command.releaseRunningFlag,
      Command.updateResultState, Command.getStdOutBuffer,
      Command.getStdErrBuffer, Command.getExitCode]
  · intro sig hwp ho hso hse
    unfold Command.run
    simp [hw, hr, hf, hwp, ho, hso, hse, Command.releaseRunningFlag,
      Command.updateResultState, Command.getStdOutBuffer,
      Command.getStdErrBuffer, Command.getExitCode]

theorem C10_error_branches_clear_buffers_witness :
    (staleCommand.run waitpidFailWorld).state.getStdOutBuffer = [] ∧
    (staleCommand.run waitpidFailWorld).state.getStdErrBuffer = [] ∧
    (staleCommand.run waitpidFailWorld).state.getExitCode =
      exitCodeSystemError ∧
    (staleCommand.run sigWorld).state.getStdOutBuffer =
      sigWorld.stdoutRead ∧
    (staleCommand.run sigWorld).state.getStdErrBuffer =
      sigWorld.stderrRead := by
  refine ⟨?_, ?_, ?_, ?_, ?_⟩
  · exact ((C10_error_branches_clear_buffers staleCommand waitpidFailWorld
      rfl rfl rfl).1 rfl).1
  · exact ((C10_error_branches_clear_buffers staleCommand waitpidFailWorld
      rfl rfl rfl).1 rfl).2.1
  · exact ((C10_error_branches_clear_buffers staleCommand waitpidFailWorld
      rfl rfl rfl).1 rfl).2.2
  · exact ((C10_error_branches_clear_buffers staleCommand sigWorld
      rfl rfl rfl).2.2 9 rfl rfl rfl rfl).1
  · exact ((C10_error_branches_clear_buffers staleCommand sigWorld
      rfl rfl rfl).2.2 9 rfl rfl rfl rfl).2

end EpicsExecute
